import Mathlib

/-!
Verification development for src/daily_digest.py.

Shallow embedding conventions:
- Python floats are modelled as rationals; the two-decimal formatting
  float(f-string with .2f) used by the code is modelled by round2.
- External effects are modelled as explicit inputs: the Yahoo Finance
  quote fetch becomes a function from a ticker symbol to an optional
  ascending close-price series (none models a raised exception), the
  news API becomes a function from a query string to an optional raw
  article list (none models a transport or parse failure), and the
  Gemini model becomes a stream of responses indexed by the sequential
  call number.
-/

/-- Models float(f-string .2f): rounding a value to two decimal places. -/
def round2 (x : ℚ) : ℚ := ((round (x * 100) : ℤ) : ℚ) / 100

/-- One element of the data_list built by get_market_and_macro in the source. -/
structure MarketEntry where
  name : String
  price : ℚ
  change : ℚ
  percent : ℚ
  is_macro_flag : Bool
  deriving Repr, DecidableEq

/-- The four display names classified as macro indicators (source line 73). -/
def macroNames : List String :=
  ["😰 恐慌指數 (VIX)", "🇺🇸 10年美債", "💵 美元指數", "🛢️ 原油 (WTI)"]

/-- hist Close iloc[-1]: the latest close of the series. -/
def lastClose (closes : List ℚ) : ℚ := closes.getD (closes.length - 1) 0

/-- hist Close iloc[-2]: the close immediately prior to the latest. -/
def prevClose (closes : List ℚ) : ℚ := closes.getD (closes.length - 2) 0

/-- The dict appended for one successfully fetched symbol (source lines 67-81).
The field is_macro_flag models the source field is_macro. -/
def mkEntry (name : String) (closes : List ℚ) : MarketEntry :=
  { name := name
    price := round2 (lastClose closes)
    change := round2 (lastClose closes - prevClose closes)
    percent := round2 ((lastClose closes - prevClose closes) / prevClose closes * 100)
    is_macro_flag := decide (name ∈ macroNames) }

/-- The fixed watchlist of (display name, ticker symbol) pairs (source lines 43-55),
in dict insertion order. -/
def tickers : List (String × String) :=
  [("🇺🇸 S&P 500", "^GSPC"),
   ("🇺🇸 Nasdaq", "^IXIC"),
   ("🇭🇰 恒生指數", "^HSI"),
   ("🪙 Bitcoin", "BTC-USD"),
   ("😰 恐慌指數 (VIX)", "^VIX"),
   ("🇺🇸 10年美債", "^TNX"),
   ("💵 美元指數", "DX-Y.NYB"),
   ("🛢️ 原油 (WTI)", "CL=F")]

/-- The per-symbol loop of get_market_and_macro (source lines 59-88): a fetch
returning none models a raised exception (caught and skipped), a series with
fewer than 2 points is reported as insufficient and skipped. -/
def processWatchlist (fetch : String → Option (List ℚ)) :
    List (String × String) → List MarketEntry
  | [] => []
  | (name, sym) :: rest =>
    match fetch sym with
    | some closes =>
      if 2 ≤ closes.length then mkEntry name closes :: processWatchlist fetch rest
      else processWatchlist fetch rest
    | none => processWatchlist fetch rest

/-- Models get_market_and_macro from the source, parametrized by the quote fetch. -/
def get_market_and_macro_data (fetch : String → Option (List ℚ)) : List MarketEntry :=
  processWatchlist fetch tickers

/-- Whether the fetch for a symbol yields a usable series (at least 2 points). -/
def fetchOk (fetch : String → Option (List ℚ)) (sym : String) : Bool :=
  match fetch sym with
  | some closes => decide (2 ≤ closes.length)
  | none => false

/-- market_indices from the main program (source line 199). -/
def marketList (fetch : String → Option (List ℚ)) : List MarketEntry :=
  (get_market_and_macro_data fetch).filter (fun x => !x.is_macro_flag)

/-- macro_indicators from the main program (source line 200). -/
def macroList (fetch : String → Option (List ℚ)) : List MarketEntry :=
  (get_market_and_macro_data fetch).filter (fun x => x.is_macro_flag)

/-- A raw article as returned by the news API (fields read by the source). -/
structure RawArticle where
  title : String
  description : String
  url : String
  publishedAt : String
  deriving Repr, DecidableEq

/-- The typed view of a parsed Gemini JSON object: each key the source reads
with dict.get, as an optional value (none models an absent key). -/
structure Analysis where
  title_zh : Option String
  summary_zh : Option String
  impact : Option String
  score : Option Int
  deriving Repr, DecidableEq

/-- Shape of a successfully json-parsed Gemini response: a dict, a list, or
some other JSON value (on which dict.get would raise, caught by the source). -/
inductive JsonVal where
  | dict (a : Analysis)
  | arr (elems : List JsonVal)
  | scalar

/-- One Gemini interaction outcome: failure models an exception raised by the
call itself or by json.loads; ok carries the parsed value. -/
inductive AIResp where
  | failure
  | ok (v : JsonVal)

/-- The source's defensive unwrap (lines 157-160): a list is replaced by its
first element once; anything that is then not a dict makes the subsequent
dict.get raise (caught by the except), modelled as none. An empty list makes
the index access raise, also none. -/
def unwrapAnalysis : JsonVal → Option Analysis
  | .dict a => some a
  | .arr (.dict a :: _) => some a
  | .arr _ => none
  | .scalar => none

/-- How one candidate article's AI interaction is classified by the loop body
(source lines 155-187): err covers the except branch, reject the score-0
branch, accept the appended branch. -/
inductive StepOutcome where
  | err
  | reject
  | accept (a : Analysis)

/-- Outcome of one Gemini response under the source's branching: except on
failure or unusable shape; accept when the dict's score (default 0) is
positive; reject otherwise. -/
def stepOutcome : AIResp → StepOutcome
  | .failure => .err
  | .ok v =>
    match unwrapAnalysis v with
    | none => .err
    | some a => if 0 < a.score.getD 0 then .accept a else .reject

/-- One element appended to final_news (source lines 164-172). -/
structure CuratedArticle where
  category : String
  title : String
  link : String
  date : String
  summary : String
  impact : String
  score : Int
  deriving Repr, DecidableEq

/-- The dict appended to final_news for one accepted article (lines 164-172):
defaults mirror the source's dict.get calls. -/
def mkCurated (category : String) (art : RawArticle) (a : Analysis) : CuratedArticle :=
  { category := category
    title := a.title_zh.getD art.title
    link := art.url
    date := art.publishedAt.take 10
    summary := a.summary_zh.getD "AI 未能生成摘要"
    impact := a.impact.getD "中性"
    score := a.score.getD 5 }

/-- The per-category article loop (source lines 115-187). State carried through
the loop: the accepted-topic list (holding the optional title_zh values the
source appends, line 176), the accepted count, and the index of the next
Gemini call in the response stream. Returns the accepted articles of this
category in order, together with the next call index. -/
def processArticles (o : Nat → AIResp) (cat : String) :
    List RawArticle → List (Option String) → Nat → Nat → List CuratedArticle × Nat
  | [], _, _, callIdx => ([], callIdx)
  | art :: rest, topics, count, callIdx =>
    if 3 ≤ count then ([], callIdx)
    else if topics.contains (some art.title) then
      processArticles o cat rest topics count callIdx
    else
      match stepOutcome (o callIdx) with
      | .err => processArticles o cat rest topics count (callIdx + 1)
      | .reject => processArticles o cat rest topics count (callIdx + 1)
      | .accept a =>
        let r := processArticles o cat rest (topics ++ [a.title_zh]) (count + 1) (callIdx + 1)
        (mkCurated cat art a :: r.1, r.2)

/-- The CATEGORIES dict (source lines 27-31), in insertion order. -/
def categories : List (String × String) :=
  [("🔥 市場頭條", "stock market OR federal reserve OR economy"),
   ("🤖 人工智慧", "Artificial Intelligence OR Nvidia OR OpenAI"),
   ("💰 加密貨幣", "Bitcoin OR Ethereum OR Crypto")]

/-- The per-category loop of get_ai_news (source lines 98-187): a news fetch
returning none models the except-continue branch; per category the topic list
and count restart while final_news and the Gemini call stream accumulate. -/
def runCategories (f : String → Option (List RawArticle)) (o : Nat → AIResp) :
    List (String × String) → Nat → List CuratedArticle × Nat
  | [], callIdx => ([], callIdx)
  | (cat, q) :: rest, callIdx =>
    match f q with
    | none => runCategories f o rest callIdx
    | some arts =>
      let r := processArticles o cat arts [] 0 callIdx
      let r2 := runCategories f o rest r.2
      (r.1 ++ r2.1, r2.2)

/-- Descending comparison on importance scores, the key of the final sort
(source line 189). -/
def scoreGE (a b : CuratedArticle) : Prop := b.score ≤ a.score

instance : DecidableRel scoreGE := fun a b => Int.decLe b.score a.score

instance : IsTotal CuratedArticle scoreGE := ⟨fun a b => le_total b.score a.score⟩

instance : IsTrans CuratedArticle scoreGE := ⟨fun _ _ _ hab hbc => le_trans hbc hab⟩

/-- final_news as accumulated before the final sort (source lines 93-187). -/
def preSortNews (key : Bool) (f : String → Option (List RawArticle))
    (o : Nat → AIResp) : List CuratedArticle :=
  if key then (runCategories f o categories 0).1 else []

/-- Models get_ai_news from the source: key is presence of NEWS_API_KEY, f the
news API, o the Gemini response stream. Python's sorted with reverse=True is a
stable descending sort, modelled extensionally by insertion sort under
scoreGE. -/
def get_ai_news (key : Bool) (f : String → Option (List RawArticle))
    (o : Nat → AIResp) : List CuratedArticle :=
  List.insertionSort scoreGE (preSortNews key f o)

/-- final_output from the main program (source lines 202-207). The field
macroData models the source field named macro. -/
structure Snapshot where
  update_time : String
  market : List MarketEntry
  news : List CuratedArticle
  macroData : List MarketEntry
  deriving Repr, DecidableEq

/-- The snapshot assembled by the main program (source lines 196-207). -/
def finalOutput (now : String) (qf : String → Option (List ℚ)) (key : Bool)
    (nf : String → Option (List RawArticle)) (o : Nat → AIResp) : Snapshot :=
  { update_time := now
    market := marketList qf
    news := get_ai_news key nf o
    macroData := macroList qf }

/-- Modelled from the spec: no RSI computation is present in
src/daily_digest.py, so the consecutive deltas of the last period+1 closes
follow the words of section 4.1 of the spec. -/
def rsiDeltas (series : List ℚ) (period : Nat) : List ℚ :=
  let window := series.drop (series.length - (period + 1))
  (window.zip window.tail).map (fun p => p.2 - p.1)

/-- Modelled from the spec: average_gain is the mean of positive deltas over
the window (section 4.1). -/
def avgGain (series : List ℚ) (period : Nat) : ℚ :=
  ((rsiDeltas series period).map (fun d => max d 0)).sum / (period : ℚ)

/-- Modelled from the spec: average_loss is the mean of absolute negative
deltas over the window (section 4.1). -/
def avgLoss (series : List ℚ) (period : Nat) : ℚ :=
  ((rsiDeltas series period).map (fun d => max (-d) 0)).sum / (period : ℚ)

/-- Modelled from the spec: compute_rsi is absent from src/daily_digest.py;
Wilder-style RSI per section 4.1: none (the unavailable outcome) for fewer
than period+1 points, 100 when average_loss is 0, else 100 - 100/(1+RS). -/
def compute_rsi (series : List ℚ) (period : Nat) : Option ℚ :=
  if series.length < period + 1 then none
  else if avgLoss series period = 0 then some 100
  else some (100 - 100 / (1 + avgGain series period / avgLoss series period))

/-- Concrete sample article for witnesses and counterexamples. -/
def exArtA : RawArticle :=
  { title := "A", description := "descA", url := "urlA", publishedAt := "2024-01-01T00:00:00Z" }

/-- Second concrete sample article with a different source title. -/
def exArtB : RawArticle :=
  { title := "B", description := "descB", url := "urlB", publishedAt := "2024-01-02T00:00:00Z" }

/-- A parsed Gemini record with target-language title X and score 9. -/
def nineAnalysis : Analysis :=
  { title_zh := some "X", summary_zh := some "s", impact := some "利多", score := some 9 }

/-- A parsed Gemini record carrying score 0 (duplicate or irrelevant). -/
def zeroAnalysis : Analysis :=
  { title_zh := some "Z", summary_zh := none, impact := none, score := some 0 }

/-- The curated entry produced for exArtA under nineAnalysis. -/
def c5Entry : CuratedArticle :=
  { category := "🔥 市場頭條", title := "X", link := "urlA",
    date := "2024-01-01", summary := "s", impact := "利多", score := 9 }

/-- A Gemini stream that always answers with the same translated title and a
positive score, regardless of the article: two different articles then both
get the target-language title X. -/
def dupOracle : Nat → AIResp :=
  fun _ => .ok (.dict nineAnalysis)

/-- A news API giving two articles with distinct source titles to the first
category and an empty list to the others. -/
def dupFetch : String → Option (List RawArticle) :=
  fun q => if q = "stock market OR federal reserve OR economy"
           then some [exArtA, exArtB] else some []

/-- A Gemini stream that always fails (exception or unparseable response). -/
def failOracle : Nat → AIResp := fun _ => .failure

/-- A Gemini stream whose first call accepts with score 9 and whose later
calls return a well-formed dict carrying score 0. -/
def mixOracle : Nat → AIResp :=
  fun k => if k = 0 then .ok (.dict nineAnalysis) else .ok (.dict zeroAnalysis)

/-- A quote fetch succeeding only for the VIX ticker. -/
def vixFetch : String → Option (List ℚ) :=
  fun s => if s = "^VIX" then some [20, 21] else none

/-- A quote fetch succeeding only for the Bitcoin ticker. -/
def btcFetch : String → Option (List ℚ) :=
  fun s => if s = "BTC-USD" then some [10, 11] else none

/-- A five-symbol watchlist used to instantiate the partial-degradation claim. -/
def fiveTickers : List (String × String) :=
  [("A", "a"), ("B", "b"), ("C", "c"), ("D", "d"), ("E", "e")]

/-- A quote fetch failing for exactly two of the five symbols of fiveTickers. -/
def fiveFetch : String → Option (List ℚ) :=
  fun s => if s = "b" ∨ s = "d" then none else some [1, 2]

/-- A news API failing (transport error) on the first category's query and
returning one article for the other categories. -/
def failFirstFetch : String → Option (List RawArticle) :=
  fun q => if q = "stock market OR federal reserve OR economy"
           then none else some [exArtA]

/-! Helper lemmas about the watchlist loop. -/

lemma processWatchlist_mem_of (fetch : String → Option (List ℚ)) :
    ∀ (ts : List (String × String)) (name sym : String) (closes : List ℚ),
      (name, sym) ∈ ts → fetch sym = some closes → 2 ≤ closes.length →
      mkEntry name closes ∈ processWatchlist fetch ts := by
  intro ts
  induction ts with
  | nil => intro name sym closes hmem _ _; cases hmem
  | cons p rest ih =>
    intro name sym closes hmem hf hlen
    obtain ⟨pn, ps⟩ := p
    rcases List.mem_cons.mp hmem with heq | htail
    · simp only [Prod.mk.injEq] at heq
      obtain ⟨rfl, rfl⟩ := heq
      simp [processWatchlist, hf, hlen]
    · have hrec := ih name sym closes htail hf hlen
      simp only [processWatchlist]
      cases hps : fetch ps with
      | none => exact hrec
      | some cl =>
        by_cases h2 : 2 ≤ cl.length
        · simp only [if_pos h2]
          exact List.mem_cons_of_mem _ hrec
        · simp only [if_neg h2]
          exact hrec

lemma processWatchlist_length (fetch : String → Option (List ℚ)) :
    ∀ ts : List (String × String),
      (processWatchlist fetch ts).length = ts.countP (fun p => fetchOk fetch p.2) := by
  intro ts
  induction ts with
  | nil => rfl
  | cons p rest ih =>
    obtain ⟨pn, ps⟩ := p
    simp only [processWatchlist, List.countP_cons]
    cases hps : fetch ps with
    | none => simp [fetchOk, hps, ih]
    | some cl =>
      by_cases h2 : 2 ≤ cl.length
      · simp [fetchOk, hps, h2, ih]
      · simp [fetchOk, hps, h2, ih]

lemma processWatchlist_shape (fetch : String → Option (List ℚ)) :
    ∀ (ts : List (String × String)) (e : MarketEntry), e ∈ processWatchlist fetch ts →
      ∃ p, p ∈ ts ∧ fetchOk fetch p.2 = true ∧
        ∃ closes, fetch p.2 = some closes ∧ e = mkEntry p.1 closes := by
  intro ts
  induction ts with
  | nil => intro e he; cases he
  | cons p rest ih =>
    intro e he
    obtain ⟨pn, ps⟩ := p
    simp only [processWatchlist] at he
    revert he
    cases hps : fetch ps with
    | none =>
      intro he
      obtain ⟨q, hq, hok, cl, hfq, he⟩ := ih e he
      exact ⟨q, List.mem_cons_of_mem _ hq, hok, cl, hfq, he⟩
    | some cl =>
      by_cases h2 : 2 ≤ cl.length
      · simp only [if_pos h2]
        intro he
        rcases List.mem_cons.mp he with heq | htail
        · exact ⟨(pn, ps), List.mem_cons_self _ _, by simp [fetchOk, hps, h2], cl, hps, heq⟩
        · obtain ⟨q, hq, hok, cl2, hfq, he2⟩ := ih e htail
          exact ⟨q, List.mem_cons_of_mem _ hq, hok, cl2, hfq, he2⟩
      · simp only [if_neg h2]
        intro he
        obtain ⟨q, hq, hok, cl2, hfq, he2⟩ := ih e he
        exact ⟨q, List.mem_cons_of_mem _ hq, hok, cl2, hfq, he2⟩

lemma mem_flag_eq (fetch : String → Option (List ℚ)) (e : MarketEntry)
    (he : e ∈ get_market_and_macro_data fetch) :
    e.is_macro_flag = decide (e.name ∈ macroNames) := by
  obtain ⟨q, _, _, closes, _, rfl⟩ := processWatchlist_shape fetch tickers e he
  rfl

/-- C1: for every watchlist symbol whose fetched price series has at least 2
points, an entry is emitted whose price, change and percent fields are the
two-decimal roundings of values satisfying exactly
change = price - previous_close and percent = change / previous_close * 100,
so the emitted triple is internally consistent up to the two-decimal
rounding. -/
theorem C1_rounding_consistency (fetch : String → Option (List ℚ))
    (name sym : String) (closes : List ℚ) (hmem : (name, sym) ∈ tickers)
    (hf : fetch sym = some closes) (hlen : 2 ≤ closes.length) :
    mkEntry name closes ∈ get_market_and_macro_data fetch ∧
    (mkEntry name closes).price = round2 (lastClose closes) ∧
    (mkEntry name closes).change = round2 (lastClose closes - prevClose closes) ∧
    (mkEntry name closes).percent =
      round2 ((lastClose closes - prevClose closes) / prevClose closes * 100) :=
  ⟨processWatchlist_mem_of fetch tickers name sym closes hmem hf hlen, rfl, rfl, rfl⟩

/-- Witness for C1 at the Bitcoin ticker with the concrete series [10, 11]. -/
theorem C1_witness :
    mkEntry "🪙 Bitcoin" [10, 11] ∈ get_market_and_macro_data btcFetch ∧
    (mkEntry "🪙 Bitcoin" [10, 11]).price = round2 (lastClose [10, 11]) ∧
    (mkEntry "🪙 Bitcoin" [10, 11]).change =
      round2 (lastClose [10, 11] - prevClose [10, 11]) ∧
    (mkEntry "🪙 Bitcoin" [10, 11]).percent =
      round2 ((lastClose [10, 11] - prevClose [10, 11]) / prevClose [10, 11] * 100) :=
  C1_rounding_consistency btcFetch "🪙 Bitcoin" "BTC-USD" [10, 11]
    (by decide) (by decide) (by decide)

/-- C2: over any watchlist with distinct display names, the number of emitted
entries equals the number of symbols whose fetch succeeds with at least 2
points, and a symbol whose fetch fails or is too short contributes no entry;
the loop is total, so the run never aborts. Instantiated in the witness with
2 of 5 symbols failing and exactly 3 entries produced. -/
theorem C2_partial_degradation (ts : List (String × String))
    (fetch : String → Option (List ℚ)) (hnd : (ts.map Prod.fst).Nodup) :
    (processWatchlist fetch ts).length = ts.countP (fun p => fetchOk fetch p.2) ∧
    ∀ p, p ∈ ts → fetchOk fetch p.2 = false →
      (processWatchlist fetch ts).countP (fun e => e.name == p.1) = 0 := by
  refine ⟨processWatchlist_length fetch ts, ?_⟩
  intro p hp hbad
  rw [List.countP_eq_zero]
  intro e he hbeq
  rw [beq_iff_eq] at hbeq
  obtain ⟨q, hq, hok, closes, hfq, rfl⟩ := processWatchlist_shape fetch ts e he
  have hname : q.1 = p.1 := hbeq
  have hqp : q = p := List.inj_on_of_nodup_map hnd hq hp hname
  rw [hqp, hbad] at hok
  cases hok

/-- Witness for C2: with fiveFetch, symbols b and d of the five-symbol
watchlist fail, and exactly 3 entries are produced, none named B. -/
theorem C2_witness :
    (processWatchlist fiveFetch fiveTickers).length = 3 ∧
    (processWatchlist fiveFetch fiveTickers).countP (fun e => e.name == "B") = 0 :=
  ⟨((C2_partial_degradation fiveTickers fiveFetch (by decide)).1).trans (by decide),
   (C2_partial_degradation fiveTickers fiveFetch (by decide)).2 ("B", "b")
     (by decide) (by decide)⟩

/-- C10: every emitted market entry lands in exactly one of the two lists of
the snapshot, in the macro list exactly when its display name is one of the
four configured macro names, and both lists are order-preserving
subsequences of the fetch output. -/
theorem C10_partition (fetch : String → Option (List ℚ)) (e : MarketEntry)
    (he : e ∈ get_market_and_macro_data fetch) :
    ((e ∈ marketList fetch ∧ ¬ e ∈ macroList fetch) ∨
      (e ∈ macroList fetch ∧ ¬ e ∈ marketList fetch)) ∧
    (e ∈ macroList fetch ↔ e.name ∈ macroNames) ∧
    List.Sublist (marketList fetch) (get_market_and_macro_data fetch) ∧
    List.Sublist (macroList fetch) (get_market_and_macro_data fetch) := by
  have hflag := mem_flag_eq fetch e he
  refine ⟨?_, ⟨?_, ?_⟩, List.filter_sublist _, List.filter_sublist _⟩
  · by_cases hb : e.is_macro_flag = true
    · right
      refine ⟨List.mem_filter.mpr ⟨he, hb⟩, fun hm => ?_⟩
      have h2 := (List.mem_filter.mp hm).2
      rw [hb] at h2
      cases h2
    · left
      have hb2 : e.is_macro_flag = false := by
        cases h : e.is_macro_flag
        · rfl
        · exact absurd h hb
      refine ⟨List.mem_filter.mpr ⟨he, by rw [hb2]; rfl⟩, fun hm => ?_⟩
      have h2 := (List.mem_filter.mp hm).2
      rw [hb2] at h2
      cases h2
  · intro hm
    have h2 := (List.mem_filter.mp hm).2
    rw [hflag] at h2
    exact of_decide_eq_true h2
  · intro hn
    exact List.mem_filter.mpr ⟨he, by rw [hflag]; exact decide_eq_true hn⟩

/-- Witness for C10 at the VIX entry produced by vixFetch. -/
theorem C10_witness :
    ((mkEntry "😰 恐慌指數 (VIX)" [20, 21] ∈ marketList vixFetch ∧
        ¬ mkEntry "😰 恐慌指數 (VIX)" [20, 21] ∈ macroList vixFetch) ∨
      (mkEntry "😰 恐慌指數 (VIX)" [20, 21] ∈ macroList vixFetch ∧
        ¬ mkEntry "😰 恐慌指數 (VIX)" [20, 21] ∈ marketList vixFetch)) ∧
    (mkEntry "😰 恐慌指數 (VIX)" [20, 21] ∈ macroList vixFetch ↔
      (mkEntry "😰 恐慌指數 (VIX)" [20, 21]).name ∈ macroNames) ∧
    List.Sublist (marketList vixFetch) (get_market_and_macro_data vixFetch) ∧
    List.Sublist (macroList vixFetch) (get_market_and_macro_data vixFetch) :=
  C10_partition vixFetch (mkEntry "😰 恐慌指數 (VIX)" [20, 21])
    (by rw [show get_market_and_macro_data vixFetch
              = [mkEntry "😰 恐慌指數 (VIX)" [20, 21]] from rfl]
        exact List.mem_singleton.mpr rfl)

/-! Helper lemmas about the curation loop. -/

lemma processArticles_of_capped (o : Nat → AIResp) (cat : String)
    (arts : List RawArticle) (topics : List (Option String)) (count callIdx : Nat)
    (hc : 3 ≤ count) : processArticles o cat arts topics count callIdx = ([], callIdx) := by
  cases arts with
  | nil => rfl
  | cons a rest => simp [processArticles, hc]

lemma stepOutcome_accept_score {r : AIResp} {a : Analysis}
    (h : stepOutcome r = .accept a) : 0 < a.score.getD 0 := by
  cases r with
  | failure => cases h
  | ok v =>
    simp only [stepOutcome] at h
    split at h
    · cases h
    · split at h
      · injection h with h2
        subst h2
        assumption
      · cases h

lemma mkCurated_score_pos {cat : String} {art : RawArticle} {a : Analysis}
    (h : 0 < a.score.getD 0) : 0 < (mkCurated cat art a).score := by
  cases hs : a.score with
  | none => rw [hs] at h; simp at h
  | some s =>
    rw [hs] at h
    simpa [mkCurated, hs] using h

lemma processArticles_mem (o : Nat → AIResp) (cat : String) :
    ∀ (arts : List RawArticle) (topics : List (Option String)) (count callIdx : Nat)
      (e : CuratedArticle), e ∈ (processArticles o cat arts topics count callIdx).1 →
      e.category = cat ∧ 0 < e.score := by
  intro arts
  induction arts with
  | nil => intro topics count callIdx e he; cases he
  | cons art rest ih =>
    intro topics count callIdx e he
    by_cases hc : 3 ≤ count
    · rw [processArticles_of_capped o cat _ _ _ _ hc] at he
      cases he
    · simp only [processArticles, if_neg hc] at he
      by_cases ht : topics.contains (some art.title) = true
      · rw [if_pos ht] at he
        exact ih _ _ _ e he
      · rw [if_neg ht] at he
        cases hso : stepOutcome (o callIdx) with
        | err => rw [hso] at he; exact ih _ _ _ e he
        | reject => rw [hso] at he; exact ih _ _ _ e he
        | accept a =>
          rw [hso] at he
          simp only [List.mem_cons] at he
          rcases he with rfl | he2
          · exact ⟨rfl, mkCurated_score_pos (stepOutcome_accept_score hso)⟩
          · exact ih _ _ _ e he2

lemma processArticles_batch_length (o : Nat → AIResp) (cat : String) :
    ∀ (arts : List RawArticle) (topics : List (Option String)) (count callIdx : Nat),
      (processArticles o cat arts topics count callIdx).1.length ≤ 3 - count := by
  intro arts
  induction arts with
  | nil => intro topics count callIdx; simp [processArticles]
  | cons art rest ih =>
    intro topics count callIdx
    by_cases hc : 3 ≤ count
    · rw [processArticles_of_capped o cat _ _ _ _ hc]
      simp
    · simp only [processArticles, if_neg hc]
      by_cases ht : topics.contains (some art.title) = true
      · rw [if_pos ht]
        exact ih _ _ _
      · rw [if_neg ht]
        cases hso : stepOutcome (o callIdx) with
        | err => exact ih _ _ _
        | reject => exact ih _ _ _
        | accept a =>
          have h2 := ih (topics ++ [a.title_zh]) (count + 1) (callIdx + 1)
          simp only [List.length_cons]
          omega

lemma processArticles_err_nil (o : Nat → AIResp) (cat : String)
    (ho : ∀ k, stepOutcome (o k) = .err) :
    ∀ (arts : List RawArticle) (topics : List (Option String)) (count callIdx : Nat),
      (processArticles o cat arts topics count callIdx).1 = [] := by
  intro arts
  induction arts with
  | nil => intro topics count callIdx; rfl
  | cons art rest ih =>
    intro topics count callIdx
    by_cases hc : 3 ≤ count
    · rw [processArticles_of_capped o cat _ _ _ _ hc]
    · simp only [processArticles, if_neg hc]
      by_cases ht : topics.contains (some art.title) = true
      · rw [if_pos ht]
        exact ih _ _ _
      · rw [if_neg ht, ho callIdx]
        exact ih _ _ _

lemma runCategories_mem (f : String → Option (List RawArticle)) (o : Nat → AIResp) :
    ∀ (cs : List (String × String)) (callIdx : Nat) (e : CuratedArticle),
      e ∈ (runCategories f o cs callIdx).1 →
      ∃ p, p ∈ cs ∧ e.category = p.1 ∧ 0 < e.score ∧ ∃ arts, f p.2 = some arts := by
  intro cs
  induction cs with
  | nil => intro callIdx e he; cases he
  | cons p rest ih =>
    intro callIdx e he
    obtain ⟨cat, q⟩ := p
    simp only [runCategories] at he
    revert he
    cases hf : f q with
    | none =>
      intro he
      obtain ⟨p2, hp2, hrest⟩ := ih _ e he
      exact ⟨p2, List.mem_cons_of_mem _ hp2, hrest⟩
    | some arts =>
      intro he
      simp only [List.mem_append] at he
      rcases he with h1 | h2
      · have hm := processArticles_mem o cat arts [] 0 callIdx e h1
        exact ⟨(cat, q), List.mem_cons_self _ _, hm.1, hm.2, arts, hf⟩
      · obtain ⟨p2, hp2, hrest⟩ := ih _ e h2
        exact ⟨p2, List.mem_cons_of_mem _ hp2, hrest⟩

lemma runCategories_err_nil (f : String → Option (List RawArticle)) (o : Nat → AIResp)
    (ho : ∀ k, stepOutcome (o k) = .err) :
    ∀ (cs : List (String × String)) (callIdx : Nat),
      (runCategories f o cs callIdx).1 = [] := by
  intro cs
  induction cs with
  | nil => intro callIdx; rfl
  | cons p rest ih =>
    intro callIdx
    obtain ⟨cat, q⟩ := p
    simp only [runCategories]
    cases hf : f q with
    | none => exact ih _
    | some arts =>
      simp only [processArticles_err_nil o cat ho, List.nil_append]
      exact ih _

lemma runCategories_countP_zero (f : String → Option (List RawArticle)) (o : Nat → AIResp)
    (c : String) (cs : List (String × String)) (callIdx : Nat)
    (h : ∀ p, p ∈ cs → p.1 = c → f p.2 = none) :
    ((runCategories f o cs callIdx).1.countP (fun e => e.category == c)) = 0 := by
  rw [List.countP_eq_zero]
  intro e he hbeq
  rw [beq_iff_eq] at hbeq
  obtain ⟨p, hp, hcat, _, arts, hf⟩ := runCategories_mem f o cs callIdx e he
  rw [h p hp (by rw [← hcat]; exact hbeq)] at hf
  cases hf

lemma countP_fst_le_one (c : String) :
    ∀ (l : List (String × String)), (l.map Prod.fst).Nodup →
      l.countP (fun p => p.1 == c) ≤ 1 := by
  intro l
  induction l with
  | nil => intro _; simp
  | cons p rest ih =>
    intro hnd
    rw [List.map_cons, List.nodup_cons] at hnd
    rw [List.countP_cons]
    by_cases hp : (p.1 == c) = true
    · rw [beq_iff_eq] at hp
      have h0 : rest.countP (fun q => q.1 == c) = 0 := by
        rw [List.countP_eq_zero]
        intro q hq hbq
        rw [beq_iff_eq] at hbq
        exact hnd.1 (by rw [hp, ← hbq]; exact List.mem_map_of_mem Prod.fst hq)
      simp [hp, h0]
    · have := ih hnd.2
      simp only [hp]
      simpa using this

lemma runCategories_countP_le (f : String → Option (List RawArticle)) (o : Nat → AIResp)
    (c : String) :
    ∀ (cs : List (String × String)) (callIdx : Nat),
      cs.countP (fun p => p.1 == c) ≤ 1 →
      ((runCategories f o cs callIdx).1.countP (fun e => e.category == c)) ≤ 3 := by
  intro cs
  induction cs with
  | nil => intro callIdx _; simp [runCategories]
  | cons p rest ih =>
    intro callIdx hle
    obtain ⟨cat, q⟩ := p
    rw [List.countP_cons] at hle
    simp only [runCategories]
    cases hf : f q with
    | none => exact ih _ (le_trans (Nat.le_add_right _ _) hle)
    | some arts =>
      rw [List.countP_append]
      by_cases hc : cat = c
      · have hbatch : ((processArticles o cat arts [] 0 callIdx).1.countP
            (fun e => e.category == c)) ≤ 3 :=
          le_trans (List.countP_le_length _)
            (by simpa using processArticles_batch_length o cat arts [] 0 callIdx)
        have h1 : (((cat, q) : String × String).1 == c) = true := by
          rw [beq_iff_eq]; exact hc
        rw [h1] at hle
        simp only [if_true] at hle
        have hrest0 : rest.countP (fun p => p.1 == c) = 0 := by omega
        have hrun0 : ((runCategories f o rest
            (processArticles o cat arts [] 0 callIdx).2).1.countP
            (fun e => e.category == c)) = 0 := by
          rw [List.countP_eq_zero]
          intro e he hbeq
          rw [beq_iff_eq] at hbeq
          obtain ⟨p2, hp2, hcat2, _, arts2, hf2⟩ :=
            runCategories_mem f o rest _ e he
          have hk := List.countP_eq_zero.mp hrest0 p2 hp2
          apply hk
          rw [beq_iff_eq, ← hcat2]
          exact hbeq
        omega
      · have hbatch0 : ((processArticles o cat arts [] 0 callIdx).1.countP
            (fun e => e.category == c)) = 0 := by
          rw [List.countP_eq_zero]
          intro e he hbeq
          rw [beq_iff_eq] at hbeq
          have := (processArticles_mem o cat arts [] 0 callIdx e he).1
          exact hc (by rw [← this]; exact hbeq)
        have hrest := ih ((processArticles o cat arts [] 0 callIdx).2)
          (le_trans (Nat.le_add_right _ _) hle)
        omega

lemma processArticles_congr (cat : String) :
    ∀ (arts : List RawArticle) (o o2 : Nat → AIResp) (topics : List (Option String))
      (count callIdx : Nat),
      (∀ k, callIdx ≤ k → stepOutcome (o k) = stepOutcome (o2 k)) →
      processArticles o cat arts topics count callIdx
        = processArticles o2 cat arts topics count callIdx := by
  intro arts
  induction arts with
  | nil => intro o o2 topics count callIdx _; rfl
  | cons art rest ih =>
    intro o o2 topics count callIdx h
    by_cases hc : 3 ≤ count
    · rw [processArticles_of_capped o cat _ _ _ _ hc,
        processArticles_of_capped o2 cat _ _ _ _ hc]
    · simp only [processArticles, if_neg hc]
      by_cases ht : topics.contains (some art.title) = true
      · simp only [if_pos ht]
        exact ih o o2 _ _ _ h
      · simp only [if_neg ht]
        rw [← h callIdx (le_refl callIdx)]
        cases hso : stepOutcome (o callIdx) with
        | err => exact ih o o2 _ _ _ (fun k hk => h k (by omega))
        | reject => exact ih o o2 _ _ _ (fun k hk => h k (by omega))
        | accept a =>
          have h2 := ih o o2 (topics ++ [a.title_zh]) (count + 1) (callIdx + 1)
            (fun k hk => h k (by omega))
          simp only [h2]

lemma filter_orderedInsert (s : Int) (a : CuratedArticle) :
    ∀ l : List CuratedArticle,
      (List.orderedInsert scoreGE a l).filter (fun e => e.score == s)
        = if a.score == s
          then a :: l.filter (fun e => e.score == s)
          else l.filter (fun e => e.score == s) := by
  intro l
  induction l with
  | nil =>
    simp only [List.orderedInsert]
    cases hpa : (a.score == s) <;> simp [List.filter_cons, hpa]
  | cons b l ih =>
    simp only [List.orderedInsert]
    by_cases hr : scoreGE a b
    · rw [if_pos hr]
      cases hpa : (a.score == s) <;> simp [List.filter_cons, hpa]
    · rw [if_neg hr]
      have hab : a.score < b.score := by
        simp only [scoreGE, not_le] at hr
        exact hr
      cases hpa : (a.score == s) with
      | false => simp [List.filter_cons, ih, hpa]
      | true =>
        have hpb : (b.score == s) = false := by
          rw [beq_eq_false_iff_ne]
          intro hbs
          rw [beq_iff_eq] at hpa
          omega
        simp [List.filter_cons, hpb, ih, hpa]

lemma filter_insertionSort (s : Int) :
    ∀ l : List CuratedArticle,
      (List.insertionSort scoreGE l).filter (fun e => e.score == s)
        = l.filter (fun e => e.score == s) := by
  intro l
  induction l with
  | nil => rfl
  | cons a l ih =>
    simp only [List.insertionSort]
    rw [filter_orderedInsert, ih]
    cases hpa : (a.score == s) <;> simp [List.filter_cons, hpa]

/-- C3 counterexample: with two articles whose source titles A and B differ
and a Gemini stream translating both to the same target-language title X with
score 9, the final curated list contains two accepted entries (score > 0)
with the identical target-language title X in the same category, because the
dedup check only compares a candidate's source title against the accepted
target-language titles. -/
theorem C3_counterexample :
    ((get_ai_news true dupFetch dupOracle).countP
      (fun e => e.title == "X" && (e.category == "🔥 市場頭條")
        && decide (0 < e.score))) = 2 := by
  decide

/-- C3 (amended): within one category-batch, the curation loop skips any
candidate article whose source title is byte-identical to one of the
already-accepted target-language titles, contributing no entry, consuming no
Gemini call and leaving cap and state unchanged; it does not guarantee that
two accepted entries never share a target-language title. -/
theorem C3_source_title_skip (o : Nat → AIResp) (cat : String) (art : RawArticle)
    (rest : List RawArticle) (topics : List (Option String)) (count callIdx : Nat)
    (ht : topics.contains (some art.title) = true) :
    processArticles o cat (art :: rest) topics count callIdx
      = processArticles o cat rest topics count callIdx := by
  by_cases hc : 3 ≤ count
  · rw [processArticles_of_capped o cat _ _ _ _ hc,
      processArticles_of_capped o cat _ _ _ _ hc]
  · simp only [processArticles, if_neg hc, if_pos ht]

/-- Witness for C3's amended statement: an article titled A is skipped when A
is already among the accepted topics. -/
theorem C3_witness :
    processArticles dupOracle "c" [exArtA] [some "A"] 0 0
      = processArticles dupOracle "c" [] [some "A"] 0 0 :=
  C3_source_title_skip dupOracle "c" exArtA [] [some "A"] 0 0 (by decide)

/-- C4 counterexample: the news API returns two articles for the first
category, the Gemini stream always fails, yet the curated output is empty;
no fallback entry with the original title and unrated impact is emitted, so
the claimed fallback policy is absent from the code. -/
theorem C4_counterexample :
    dupFetch "stock market OR federal reserve OR economy" = some [exArtA, exArtB] ∧
    get_ai_news true dupFetch failOracle = [] := by
  constructor
  · rfl
  · simp [get_ai_news, preSortNews,
      runCategories_err_nil dupFetch failOracle (fun _ => rfl)]

/-- C4 (amended): when the Gemini call or its parsing fails for an article,
that article is skipped entirely, with no entry emitted and the cap not
consumed, and the loop continues with the next candidate; hence if the AI
always fails the run still completes with an empty curated list, while the
market data in the snapshot is unaffected by the AI stream. -/
theorem C4_failure_skips (f : String → Option (List RawArticle)) (now : String)
    (qf : String → Option (List ℚ)) :
    get_ai_news true f failOracle = [] ∧
    (∀ (o : Nat → AIResp) (cat : String) (art : RawArticle) (rest : List RawArticle)
       (topics : List (Option String)) (count callIdx : Nat),
       o callIdx = AIResp.failure → count < 3 →
       topics.contains (some art.title) = false →
       processArticles o cat (art :: rest) topics count callIdx
         = processArticles o cat rest topics count (callIdx + 1)) ∧
    ∀ o : Nat → AIResp,
      (finalOutput now qf true f o).market = (finalOutput now qf true f failOracle).market ∧
      (finalOutput now qf true f o).macroData
        = (finalOutput now qf true f failOracle).macroData := by
  refine ⟨?_, ?_, fun o => ⟨rfl, rfl⟩⟩
  · simp [get_ai_news, preSortNews, runCategories_err_nil f failOracle (fun _ => rfl)]
  · intro o cat art rest topics count callIdx ho hcount ht
    have hc : ¬ 3 ≤ count := by omega
    have ht2 : ¬ (topics.contains (some art.title) = true) := by
      rw [ht]
      exact Bool.false_ne_true
    simp only [processArticles, if_neg hc, if_neg ht2, ho]
    rfl

/-- Witness for C4's amended statement at concrete inputs. -/
theorem C4_witness :
    get_ai_news true dupFetch failOracle = [] ∧
    processArticles failOracle "c" [exArtA] [] 0 0
      = processArticles failOracle "c" [] [] 0 1 ∧
    (finalOutput "t" vixFetch true dupFetch dupOracle).market
      = (finalOutput "t" vixFetch true dupFetch failOracle).market := by
  have h := C4_failure_skips dupFetch "t" vixFetch
  exact ⟨h.1, h.2.1 failOracle "c" exArtA [] [] 0 0 rfl (by omega) (by decide),
    (h.2.2 dupOracle).1⟩

/-- C5: every article in the curated output has a positive importance score;
per category label at most 3 entries appear; and an article whose parsed
response carries score 0 is discarded without emission and without consuming
the cap, the loop moving to the next candidate. -/
theorem C5_cap_and_positivity (key : Bool) (f : String → Option (List RawArticle))
    (o : Nat → AIResp) (c : String) :
    (∀ e, e ∈ get_ai_news key f o → 0 < e.score) ∧
    (get_ai_news key f o).countP (fun e => e.category == c) ≤ 3 ∧
    ∀ (cat : String) (art : RawArticle) (rest : List RawArticle)
      (topics : List (Option String)) (count callIdx : Nat) (v : JsonVal) (a : Analysis),
      count < 3 → topics.contains (some art.title) = false →
      o callIdx = AIResp.ok v → unwrapAnalysis v = some a → a.score.getD 0 = 0 →
      processArticles o cat (art :: rest) topics count callIdx
        = processArticles o cat rest topics count (callIdx + 1) := by
  refine ⟨?_, ?_, ?_⟩
  · intro e he
    rw [get_ai_news, List.mem_insertionSort] at he
    rw [preSortNews] at he
    by_cases hk : key = true
    · rw [if_pos hk] at he
      obtain ⟨p, _, _, hsc, _⟩ := runCategories_mem f o categories 0 e he
      exact hsc
    · rw [if_neg hk] at he
      cases he
  · have hperm := List.perm_insertionSort scoreGE (preSortNews key f o)
    rw [get_ai_news, hperm.countP_eq]
    rw [preSortNews]
    by_cases hk : key = true
    · rw [if_pos hk]
      exact runCategories_countP_le f o c categories 0
        (countP_fst_le_one c categories (by decide))
    · rw [if_neg hk]
      simp
  · intro cat art rest topics count callIdx v a hcount ht ho hv hs
    have hc : ¬ 3 ≤ count := by omega
    have ht2 : ¬ (topics.contains (some art.title) = true) := by
      rw [ht]
      exact Bool.false_ne_true
    have hso : stepOutcome (o callIdx) = .reject := by
      rw [ho]
      simp [stepOutcome, hv, hs]
    simp only [processArticles, if_neg hc, if_neg ht2, hso]

/-- Witness for C5: the accepted score-9 entry has positive score, the first
category carries at most 3 entries, and a concrete score-0 response is
discarded without consuming the cap. -/
theorem C5_witness :
    (0 : Int) < c5Entry.score ∧
    (get_ai_news true dupFetch mixOracle).countP
      (fun e => e.category == "🔥 市場頭條") ≤ 3 ∧
    processArticles mixOracle "c" [exArtB] [] 0 1
      = processArticles mixOracle "c" [] [] 0 2 := by
  have h := C5_cap_and_positivity true dupFetch mixOracle "🔥 市場頭條"
  refine ⟨h.1 c5Entry (by decide), h.2.1,
    h.2.2 "c" exArtB [] [] 0 1 (.dict zeroAnalysis) zeroAnalysis
      (by omega) (by decide) rfl rfl rfl⟩

/-- C6: the final curated list is sorted by importance score descending, and
the sort is stable: for every score value, the entries carrying it appear in
the same order as in the pre-sort discovery list. -/
theorem C6_sorted_stable (key : Bool) (f : String → Option (List RawArticle))
    (o : Nat → AIResp) :
    List.Sorted scoreGE (get_ai_news key f o) ∧
    ∀ s : Int, (get_ai_news key f o).filter (fun e => e.score == s)
      = (preSortNews key f o).filter (fun e => e.score == s) :=
  ⟨List.sorted_insertionSort scoreGE _, fun s => filter_insertionSort s _⟩

/-- C9: when a Gemini response parses to a list whose first element is a
record, the curation loop processes the whole batch exactly as if that single
record had been returned in its place. -/
theorem C9_list_unwrap (cat : String) (arts : List RawArticle)
    (topics : List (Option String)) (count callIdx : Nat) (o : Nat → AIResp)
    (a : Analysis) (rs : List JsonVal) :
    processArticles (fun k => if k = callIdx then .ok (.arr (.dict a :: rs)) else o k)
        cat arts topics count callIdx
      = processArticles (fun k => if k = callIdx then .ok (.dict a) else o k)
        cat arts topics count callIdx := by
  apply processArticles_congr
  intro k _
  by_cases hk : k = callIdx
  · simp [hk, stepOutcome, unwrapAnalysis]
  · simp [hk]

/-- C7: for every price series with at least 51 points, compute_rsi returns a
defined value in the closed interval [0, 100], and when the average loss over
the window is 0 the value is exactly 100; the division is special-cased so no
undefined result is produced. -/
theorem C7_rsi_bounds (s : List ℚ) (h : 51 ≤ s.length) :
    ∃ r, compute_rsi s 14 = some r ∧ 0 ≤ r ∧ r ≤ 100 ∧
      (avgLoss s 14 = 0 → r = 100) := by
  have hlen : ¬ s.length < 14 + 1 := by omega
  by_cases h0 : avgLoss s 14 = 0
  · refine ⟨100, ?_, by norm_num, by norm_num, fun _ => rfl⟩
    rw [compute_rsi, if_neg hlen, if_pos h0]
  · have hg : 0 ≤ avgGain s 14 := by
      apply div_nonneg
      · apply List.sum_nonneg
        intro x hx
        obtain ⟨d, _, rfl⟩ := List.mem_map.mp hx
        exact le_max_right d 0
      · norm_num
    have hl0 : 0 ≤ avgLoss s 14 := by
      apply div_nonneg
      · apply List.sum_nonneg
        intro x hx
        obtain ⟨d, _, rfl⟩ := List.mem_map.mp hx
        exact le_max_right (-d) 0
      · norm_num
    have hl : 0 < avgLoss s 14 := lt_of_le_of_ne hl0 (Ne.symm h0)
    have hrs : 0 ≤ avgGain s 14 / avgLoss s 14 := div_nonneg hg (le_of_lt hl)
    have h1 : (1 : ℚ) ≤ 1 + avgGain s 14 / avgLoss s 14 := by linarith
    have hdle : 100 / (1 + avgGain s 14 / avgLoss s 14) ≤ 100 :=
      div_le_self (by norm_num) h1
    have hdpos : 0 < 100 / (1 + avgGain s 14 / avgLoss s 14) :=
      div_pos (by norm_num) (by linarith)
    refine ⟨100 - 100 / (1 + avgGain s 14 / avgLoss s 14), ?_,
      by linarith, by linarith, fun hcontra => absurd hcontra h0⟩
    rw [compute_rsi, if_neg hlen, if_neg h0]

/-- Witness for C7 at a constant 51-point series (average loss 0, RSI 100). -/
theorem C7_witness :
    ∃ r, compute_rsi (List.replicate 51 (1 : ℚ)) 14 = some r ∧ 0 ≤ r ∧ r ≤ 100 ∧
      (avgLoss (List.replicate 51 (1 : ℚ)) 14 = 0 → r = 100) :=
  C7_rsi_bounds (List.replicate 51 1) (by simp)

/-- C8: the news component never raises: without the news API credential its
output is the empty list while the snapshot's market data fields are still
produced; and a transport or parse failure on one category's query leaves
that category with no entries while the other categories are still
processed (the loop is total). -/
theorem C8_news_degradation (f : String → Option (List RawArticle)) (o : Nat → AIResp)
    (now : String) (qf : String → Option (List ℚ)) (c q : String) :
    get_ai_news false f o = [] ∧
    (finalOutput now qf false f o).market = marketList qf ∧
    (finalOutput now qf false f o).macroData = macroList qf ∧
    ((c, q) ∈ categories → f q = none →
      (get_ai_news true f o).countP (fun e => e.category == c) = 0) := by
  refine ⟨rfl, rfl, rfl, ?_⟩
  intro hmem hf
  have hperm := List.perm_insertionSort scoreGE (preSortNews true f o)
  rw [get_ai_news, hperm.countP_eq]
  rw [preSortNews, if_pos rfl]
  apply runCategories_countP_zero f o c categories 0
  intro p hp hpc
  simp only [categories, List.mem_cons, List.not_mem_nil, or_false] at hmem hp
  rcases hmem with h1 | h1 | h1 <;>
    rcases hp with rfl | rfl | rfl <;>
    simp only [Prod.mk.injEq] at h1 <;>
    obtain ⟨hc1, hq1⟩ := h1 <;>
    first
      | (rw [← hq1]; exact hf)
      | (exact absurd (hpc.trans hc1) (by decide))

/-- Witness for C8: no credential gives an empty news list with market data
intact, and a transport failure on the first category's query leaves that
category empty while the run proceeds. -/
theorem C8_witness :
    get_ai_news false failFirstFetch dupOracle = [] ∧
    (finalOutput "t" btcFetch false failFirstFetch dupOracle).market
      = marketList btcFetch ∧
    (finalOutput "t" btcFetch false failFirstFetch dupOracle).macroData
      = macroList btcFetch ∧
    (get_ai_news true failFirstFetch dupOracle).countP
      (fun e => e.category == "🔥 市場頭條") = 0 := by
  have h := C8_news_degradation failFirstFetch dupOracle "t" btcFetch
    "🔥 市場頭條" "stock market OR federal reserve OR economy"
  exact ⟨h.1, h.2.1, h.2.2.1, h.2.2.2 (by decide) (by decide)⟩
